import Mathlib

/-!
Verification of the CRPropa candidate-processing pipeline core.

This file gives a shallow embedding, in Lean 4, of the reference-counting
ownership kernel (`include/crpropa/Referenced.h`), the particle collector
(`src/module/ParticleCollector.cpp`) and the performance / filter /
accumulator / photon-output modules (`src/module/Tools.cpp` and
`src/module/PhotonOutput1D.cpp`), together with theorems settling the
specification claims about them.

Machine integers are modelled as `Nat`/`Int` with explicit reduction
modulo `2^w` where the C++ code can overflow or truncate; `double` values
that the claims only ever add and compare are modelled as exact rationals
(`Rat`); C++ heap identity is modelled by indexing objects with `Nat`
addresses into explicit heaps.
-/

namespace crpropa

/-! Section: Ownership kernel: `Referenced` (include/crpropa/Referenced.h)

`_referenceCount` is a `size_t` (modelled as a `Nat` kept below `2^64`),
but the local `int newRef` truncates it to a signed 32-bit value, and the
`size_t` return type converts that value back (sign-extending).  The
atomic branch embedded here is the `__GNUC__` one
(`__sync_add_and_fetch` / `__sync_sub_and_fetch`, which yield the value
after the update); the `OPENMP_3_1` and `#pragma omp critical` fallback
branches instead capture the post-increment (pre-update) value.
`deleteCount` counts how many times `delete this` has executed, so that
double destruction is observable in the model. -/

/-- Width constant: `2^64`, the modulus of `size_t` arithmetic. -/
def SIZE_T_MOD : Nat := 18446744073709551616

/-- Width constant: `2^32`, the modulus of `int` truncation. -/
def INT_MOD : Nat := 4294967296

/-- Conversion of an unsigned value to a signed 32-bit `int`
(truncation modulo `2^32`, then reinterpretation into `[-2^31, 2^31)`). -/
def toInt32 (n : Nat) : Int :=
  if n % INT_MOD < 2147483648 then ((n % INT_MOD : Nat) : Int)
  else ((n % INT_MOD : Nat) : Int) - (INT_MOD : Int)

/-- Conversion of a signed `int` back to `size_t` (modulo `2^64`,
negative values sign-extend). -/
def toSizeT (z : Int) : Nat := (z % (SIZE_T_MOD : Int)).toNat

/-- State of one `Referenced` object: its `_referenceCount` member and
the number of times `delete this` has run on it. -/
structure Referenced where
  _referenceCount : Nat
  deleteCount : Nat
  deriving Repr, DecidableEq

/-- A freshly constructed `Referenced` object: `_referenceCount(0)`. -/
def Referenced.fresh : Referenced := { _referenceCount := 0, deleteCount := 0 }

/-- Embeds `Referenced::addReference` (`__GNUC__` branch):
`newRef = __sync_add_and_fetch(&_referenceCount, 1)` stores the
incremented count into the `int newRef` and returns it as `size_t`. -/
def Referenced.addReference (r : Referenced) : Referenced × Nat :=
  let c := (r._referenceCount + 1) % SIZE_T_MOD
  let newRef : Int := toInt32 c
  ({ r with _referenceCount := c }, toSizeT newRef)

/-- Embeds `Referenced::removeReference` (`__GNUC__` branch):
`newRef = __sync_sub_and_fetch(&_referenceCount, 1)`; when the resulting
`int` is zero the object runs `delete this`; the `int` is returned as
`size_t`.  The `size_t` decrement wraps at zero, i.e. it computes
`(count + 2^64 - 1) % 2^64`, written here branch-wise. -/
def Referenced.removeReference (r : Referenced) : Referenced × Nat :=
  let c := if r._referenceCount = 0 then SIZE_T_MOD - 1 else r._referenceCount - 1
  let newRef : Int := toInt32 c
  ({ _referenceCount := c,
     deleteCount := r.deleteCount + (if newRef = 0 then 1 else 0) }, toSizeT newRef)

/-- One call in a usage history of a `Referenced` object. -/
inductive RefOp where
  | add
  | remove
  deriving Repr, DecidableEq

/-- Apply a sequence of `addReference`/`removeReference` calls to an
object, keeping only the evolving object state. -/
def runRefOps (r : Referenced) : List RefOp → Referenced
  | [] => r
  | RefOp.add :: t => runRefOps (r.addReference).1 t
  | RefOp.remove :: t => runRefOps (r.removeReference).1 t

/-- Number of `addReference` calls in a history. -/
def nAdds : List RefOp → Nat
  | [] => 0
  | RefOp.add :: t => nAdds t + 1
  | RefOp.remove :: t => nAdds t

/-- Number of `removeReference` calls in a history. -/
def nRemoves : List RefOp → Nat
  | [] => 0
  | RefOp.add :: t => nRemoves t
  | RefOp.remove :: t => nRemoves t + 1

/-! Section: `ref_ptr` (include/crpropa/Referenced.h)

A `ref_ptr` handle is its `_ptr` member, modelled as `Option Nat`
(`none` for the null pointer, `some p` for the address `p` of a
`Referenced` object in a heap `RCHeap`). -/

/-- Effect on the pointee of the copy constructor
`ref_ptr(const ref_ptr& rp)`: `if (_ptr) _ptr->addReference();`. -/
def refPtrCopyCtor (ptrValid : Bool) (r : Referenced) : Referenced :=
  if ptrValid then (r.addReference).1 else r

/-- Effect on the pointee of the destructor `~ref_ptr()`:
`if (_ptr) _ptr->removeReference();`. -/
def refPtrDtor (ptrValid : Bool) (r : Referenced) : Referenced :=
  if ptrValid then (r.removeReference).1 else r

/-- Heap of `Referenced` objects indexed by address. -/
def RCHeap := Nat → Referenced

/-- Embeds `p->addReference()` performed on the heap. -/
def heapAddRef (h : RCHeap) (p : Nat) : RCHeap :=
  fun q => if q = p then ((h p).addReference).1 else h q

/-- Embeds `p->removeReference()` performed on the heap. -/
def heapRemoveRef (h : RCHeap) (p : Nat) : RCHeap :=
  fun q => if q = p then ((h p).removeReference).1 else h q

/-- A reference-count mutation performed by a `ref_ptr` operation, in
program order. -/
inductive RefEvent where
  | addRef (p : Nat)
  | removeRef (p : Nat)
  deriving Repr, DecidableEq

/-- Embeds `ref_ptr::operator=(T* ptr)`: early-returns when `_ptr == ptr`;
otherwise saves `tmp_ptr = _ptr`, installs `ptr`, increments the new
pointee (when non-null), then decrements the old one (when non-null).
Returns the new `_ptr`, the updated heap, and the ordered list of
count mutations performed. -/
def refPtrAssignRaw (self ptr : Option Nat) (h : RCHeap) :
    (Option Nat × RCHeap) × List RefEvent :=
  if self = ptr then ((self, h), [])
  else
    let step1 : RCHeap × List RefEvent :=
      match ptr with
      | some p => (heapAddRef h p, [RefEvent.addRef p])
      | none => (h, [])
    let step2 : RCHeap × List RefEvent :=
      match self with
      | some p => (heapRemoveRef step1.1 p, [RefEvent.removeRef p])
      | none => (step1.1, [])
    ((ptr, step2.1), step1.2 ++ step2.2)

/-- Embeds `ref_ptr::assign(const ref_ptr<Other>& rp)`: identical guard and
order (`operator=(const ref_ptr&)` forwards here, so self-assignment
takes the `_ptr == rp._ptr` early return). -/
def refPtrAssign (self rpPtr : Option Nat) (h : RCHeap) :
    (Option Nat × RCHeap) × List RefEvent :=
  if self = rpPtr then ((self, h), [])
  else
    let step1 : RCHeap × List RefEvent :=
      match rpPtr with
      | some p => (heapAddRef h p, [RefEvent.addRef p])
      | none => (h, [])
    let step2 : RCHeap × List RefEvent :=
      match self with
      | some p => (heapRemoveRef step1.1 p, [RefEvent.removeRef p])
      | none => (step1.1, [])
    ((rpPtr, step2.1), step1.2 ++ step2.2)

/-! Section: Candidate model

`Candidate.cpp` is not part of the sources at hand (only its callers
are), so the candidate record and the operations `clone`, `restart` and
`setActive` are modelled from the spec: current / created / source
particle-state snapshots, an `active` flag, trajectory bookkeeping, and
an owned, insertion-ordered list of secondary candidates.  A particle
state keeps the fields the modules at hand read: id, energy, and the
radial distance `getR()` of the position. -/

/-- One particle-state snapshot (id, energy, radial position). -/
structure ParticleState where
  id : Int
  energy : Rat
  posR : Rat
  deriving Repr, DecidableEq

/-- Modelled from the spec: a candidate record (`Candidate` is not under
src/) — current state, created-state snapshot, source-state snapshot,
`active` flag, trajectory length, and owned secondaries. -/
inductive Cand where
  | mk (current created source : ParticleState) (active : Bool)
      (trajectoryLength : Rat) (secondaries : List Cand)
  deriving Repr

def Cand.current : Cand → ParticleState
  | Cand.mk c _ _ _ _ _ => c

def Cand.created : Cand → ParticleState
  | Cand.mk _ c _ _ _ _ => c

def Cand.source : Cand → ParticleState
  | Cand.mk _ _ s _ _ _ => s

def Cand.active : Cand → Bool
  | Cand.mk _ _ _ a _ _ => a

def Cand.trajectoryLength : Cand → Rat
  | Cand.mk _ _ _ _ t _ => t

def Cand.secondaries : Cand → List Cand
  | Cand.mk _ _ _ _ _ s => s

/-- Embeds `Candidate::setActive(bool)`. -/
def Cand.setActive : Cand → Bool → Cand
  | Cand.mk cu cr so _ tl se, b => Cand.mk cu cr so b tl se

mutual

/-- Modelled from the spec: `Candidate::clone(bool recursive)` (not
under src/) — an independent copy of the candidate, including a deep
copy of the entire secondary subtree exactly when `recursive` is set
(otherwise the copy has no secondaries). -/
def Cand.clone : Cand → Bool → Cand
  | Cand.mk cu cr so a tl se, recursive =>
      Cand.mk cu cr so a tl (if recursive then cloneList se recursive else [])

/-- Deep copy of a list of secondary candidates. -/
def cloneList : List Cand → Bool → List Cand
  | [], _ => []
  | c :: t, recursive => Cand.clone c recursive :: cloneList t recursive

end

/-- Modelled from the spec: `Candidate::restart()` (not under src/) —
resets the trajectory length to 0 and `active` to `true` while leaving
the source and created snapshots (and the rest of the record)
untouched. -/
def Cand.restart : Cand → Cand
  | Cand.mk cu cr so _ _ se => Cand.mk cu cr so true 0 se

/-- Heap of live candidates indexed by address (C++ `Candidate*`). -/
def CandHeap := Nat → Cand

/-! Section: ParticleCollector (src/module/ParticleCollector.cpp) -/

/-- One entry of the collector's container: the stored
`ref_ptr<Candidate>` either shares the live candidate at an address, or
owns an independent clone. -/
inductive CollEntry where
  | shared (p : Nat)
  | cloned (c : Cand)
  deriving Repr

/-- State of a `ParticleCollector`: the `clone` and `recursive` member
flags and the container.  (`nBuffer` only feeds `container.reserve`, a
pure allocation hint with no observable semantics, and is omitted.) -/
structure ParticleCollector where
  clone : Bool
  recursive : Bool
  container : List CollEntry

/-- Embeds `ParticleCollector::ParticleCollector()`:
`clone(false), recursive(false)`. -/
def ParticleCollector.ctorDefault : ParticleCollector :=
  { clone := false, recursive := false, container := [] }

/-- Embeds `ParticleCollector::ParticleCollector(nBuffer)`:
`clone(false), recursive(false)`. -/
def ParticleCollector.ctorBuffer (nBuffer : Nat) : ParticleCollector :=
  { clone := false, recursive := false, container := [] }

/-- Embeds `ParticleCollector::ParticleCollector(nBuffer, clone)`: the
initializer list only sets `recursive(false)`; the `clone` argument is
never assigned to the member, which is left uninitialized —
`uninitClone` is the indeterminate value the member happens to hold. -/
def ParticleCollector.ctorBufferClone (nBuffer : Nat) (cloneArg : Bool)
    (uninitClone : Bool) : ParticleCollector :=
  { clone := uninitClone, recursive := false, container := [] }

/-- Embeds `ParticleCollector::ParticleCollector(nBuffer, clone, recursive)`:
the initializer list sets neither member; both are left uninitialized —
`uninitClone` / `uninitRecursive` are the indeterminate values they
happen to hold. -/
def ParticleCollector.ctorBufferCloneRecursive (nBuffer : Nat)
    (cloneArg recursiveArg : Bool)
    (uninitClone uninitRecursive : Bool) : ParticleCollector :=
  { clone := uninitClone, recursive := uninitRecursive, container := [] }

/-- Embeds `ParticleCollector::process(Candidate *c)`: under the
`ModifyContainer` critical region, pushes back `c->clone(recursive)`
when the `clone` member is set, else pushes back the shared handle. -/
def ParticleCollector.process (col : ParticleCollector) (heap : CandHeap)
    (c : Nat) : ParticleCollector :=
  if col.clone then
    { col with container := col.container ++ [CollEntry.cloned ((heap c).clone col.recursive)] }
  else
    { col with container := col.container ++ [CollEntry.shared c] }

/-- Embeds `ParticleCollector::size()`. -/
def ParticleCollector.size (col : ParticleCollector) : Nat :=
  col.container.length

/-- The candidate value a stored entry refers to. -/
def CollEntry.deref (heap : CandHeap) : CollEntry → Cand
  | CollEntry.shared p => heap p
  | CollEntry.cloned c => c

/-- Fallback particle state (used only as the out-of-range default of
indexed access). -/
def defaultParticleState : ParticleState := { id := 0, energy := 0, posR := 0 }

/-- Fallback candidate (used only as the out-of-range default of
indexed access). -/
def defaultCand : Cand :=
  Cand.mk defaultParticleState defaultParticleState defaultParticleState true 0 []

/-! Section: Pipeline driver: ModuleList (modelled from the spec)

`ModuleList.cpp` is not under src/; the collector's `getTrajectory` is
its caller.  A module is its `process` capability (the candidate it
returns is the mutated candidate); `add` appends to the ordered chain,
`remove(i)` erases the module at index `i`, and `run` repeatedly applies
the full ordered chain until the candidate goes inactive or the
configured step budget (`fuel`) is exhausted.  The recursive descent
into secondaries is not modelled: no claim at hand depends on it and the
spec leaves its exact interleaving open. -/

/-- A pipeline module, reduced to its `process` capability. -/
def Module := Cand → Cand

/-- Modelled from the spec: the pipeline driver's ordered module
chain. -/
structure ModuleList where
  modules : List Module

/-- Modelled from the spec: `ModuleList::add` appends a module. -/
def ModuleList.add (ml : ModuleList) (m : Module) : ModuleList :=
  { modules := ml.modules ++ [m] }

/-- Modelled from the spec: `ModuleList::size`. -/
def ModuleList.size (ml : ModuleList) : Nat :=
  ml.modules.length

/-- Modelled from the spec: `ModuleList::remove(i)` erases the module at
index `i`. -/
def ModuleList.remove (ml : ModuleList) (i : Nat) : ModuleList :=
  { modules := ml.modules.eraseIdx i }

/-- One pass of the full ordered module chain over a candidate. -/
def chainOnce : List Module → Cand → Cand
  | [], c => c
  | m :: t, c => chainOnce t (m c)

/-- Modelled from the spec: `ModuleList::run` — repeatedly run the full
ordered chain until the candidate becomes inactive or the step budget is
exhausted. -/
def ModuleList.run (ml : ModuleList) : Nat → Cand → Cand
  | 0, c => c
  | fuel + 1, c => if c.active then ModuleList.run ml fuel (chainOnce ml.modules c) else c

/-- Embeds `ParticleCollector::getTrajectory(ModuleList*, i, Module*)`: clones
`container[i]`, restarts the clone, appends `output` to the module
chain, re-runs the pipeline on the restarted clone, then removes the
module at index `size() - 1`.  Returns the (unchanged) collector, the
final module list, and the candidate the run produced. -/
def ParticleCollector.getTrajectory (col : ParticleCollector) (heap : CandHeap)
    (mlist : ModuleList) (i : Nat) (output : Module) (fuel : Nat) :
    ParticleCollector × ModuleList × Cand :=
  let c_tmp := ((col.container.getD i (CollEntry.cloned defaultCand)).deref heap).clone false
  let c_tmp := c_tmp.restart
  let ml1 := mlist.add output
  let cRun := ml1.run fuel c_tmp
  (col, ml1.remove (ml1.size - 1), cRun)

/-! Section: ParticleFilter (src/module/Tools.cpp) -/

/-- Which abstract capability `ParticleFilter::process` invokes. -/
inductive FilterDecision where
  | accept
  | reject
  deriving Repr, DecidableEq

/-- Embeds `ParticleFilter`: holds the set of particle-type identifiers. -/
structure ParticleFilter where
  ids : Finset Int

/-- Embeds `ParticleFilter::addId`. -/
def ParticleFilter.addId (f : ParticleFilter) (id : Int) : ParticleFilter :=
  { ids := insert id f.ids }

/-- Embeds `ParticleFilter::removeId`. -/
def ParticleFilter.removeId (f : ParticleFilter) (id : Int) : ParticleFilter :=
  { ids := f.ids.erase id }

/-- Embeds `ParticleFilter::process`: `if (ids.find(current.getId()) == ids.end())
reject(candidate); else accept(candidate);` — reported as which abstract
capability is invoked. -/
def ParticleFilter.process (f : ParticleFilter) (c : Cand) : FilterDecision :=
  if c.current.id ∉ f.ids then FilterDecision.reject else FilterDecision.accept

/-! Section: EmissionMapFiller (src/module/Tools.cpp) -/

/-- Modelled from the spec: `EmissionMap::fillMap(source)` (EmissionMap
is not under src/) — records the forwarded source state in the
externally owned accumulation structure. -/
def fillMap (m : List ParticleState) (s : ParticleState) : List ParticleState :=
  m ++ [s]

/-- Embeds `EmissionMapFiller`: an optional pointer to the shared emission
map, modelled by the map's recorded contents. -/
structure EmissionMapFiller where
  emissionMap : Option (List ParticleState)

/-- Embeds `EmissionMapFiller::process`: `if (emissionMap) { fillMap(candidate->source) }`
under the `EmissionMap` critical region; no-op when no map is set. -/
def EmissionMapFiller.process (f : EmissionMapFiller) (c : Cand) : EmissionMapFiller :=
  match f.emissionMap with
  | some m => { emissionMap := some (fillMap m c.source) }
  | none => f

/-! Section: PhotonOutput1D (src/module/PhotonOutput1D.cpp) -/

/-- One output record of `PhotonOutput1D`: the numeric fields of the
line `ID E D pID pE iID iE iD` that `process` formats and writes. -/
structure PhotonRecord where
  ID : Int
  E : Rat
  D : Rat
  pID : Int
  pE : Rat
  iID : Int
  iE : Rat
  iD : Rat
  deriving Repr, DecidableEq

/-- Embeds `PhotonOutput1D::process`: returns unchanged with no record unless
`pid == 22 || abs(pid) == 11`; otherwise writes one record (energies
divided by `EeV`, distances by `Mpc` — unit constants from Units.h,
not under src/, taken as parameters) and deactivates the candidate. -/
def PhotonOutput1D.process (EeV Mpc : Rat) (c : Cand) : Cand × Option PhotonRecord :=
  let pid := c.current.id
  if pid ≠ 22 ∧ |pid| ≠ 11 then (c, none)
  else
    (c.setActive false,
     some { ID := pid, E := c.current.energy / EeV, D := c.current.posR / Mpc,
            pID := c.created.id, pE := c.created.energy / EeV,
            iID := c.source.id, iE := c.source.energy / EeV,
            iD := c.source.posR / Mpc })

/-- A concrete particle state used in witnesses. -/
def psOf (id : Int) : ParticleState := { id := id, energy := 2, posR := 3 }

/-- A concrete candidate used in witnesses. -/
def candOf (id : Int) (active : Bool) : Cand :=
  Cand.mk (psOf id) (psOf id) (psOf id) active 0 []

/-- A collector holding one shared entry, used in witnesses. -/
def collWithOne : ParticleCollector :=
  { clone := false, recursive := false, container := [CollEntry.shared 0] }

/-! Section: PerformanceModule (src/module/Tools.cpp)

`_module_info` holds the wrapped module (modelled by an identifier
standing for the `Module*`) and its accumulated `time`; `double` wall
times are modelled as exact rationals.  Each `process` call measures one
wall-clock duration per wrapped module; those measured durations are an
environment input, a function from the module index to the duration of
this call. -/

/-- Embeds `_module_info`: the wrapped module and its accumulated time. -/
structure ModuleInfo where
  moduleId : Nat
  time : Rat
  deriving Repr, DecidableEq

/-- State of a `PerformanceModule`: the wrapped-module list and the
global invocation counter `calls`. -/
structure PerformanceModule where
  modules : List ModuleInfo
  calls : Nat
  deriving Repr, DecidableEq

/-- Embeds `PerformanceModule::add(Module*)`: appends an info record with
`time = 0`. -/
def PerformanceModule.add (pm : PerformanceModule) (moduleId : Nat) :
    PerformanceModule :=
  { pm with modules := pm.modules ++ [{ moduleId := moduleId, time := 0 }] }

/-- The merge loop of `PerformanceModule::process`:
`modules[i].time += times[i]` for every `i` (the index counts from
`i0`). -/
def addTimes : List ModuleInfo → (Nat → Rat) → Nat → List ModuleInfo
  | [], _, _ => []
  | m :: t, d, i0 => { m with time := m.time + d i0 } :: addTimes t d (i0 + 1)

/-- Embeds `PerformanceModule::process`: measures per-call durations `d i` of
each wrapped module, then under the `PerformanceModule` critical region
merges them into the cumulative totals and increments `calls`. -/
def PerformanceModule.process (pm : PerformanceModule) (d : Nat → Rat) :
    PerformanceModule :=
  { modules := addTimes pm.modules d 0, calls := pm.calls + 1 }

/-- The total computed by `~PerformanceModule()`:
`total = 0; for i: total += modules[i].time`. -/
def PerformanceModule.totalTime (pm : PerformanceModule) : Rat :=
  pm.modules.foldl (fun total m => total + m.time) 0

/-- A sequence of `process` calls with their measured durations. -/
def pmRun (pm : PerformanceModule) : List (Nat → Rat) → PerformanceModule
  | [] => pm
  | d :: t => pmRun (pm.process d) t

/-- A `PerformanceModule` built by `add`-ing the given wrapped
modules to a freshly constructed instance. -/
def pmInit (ids : List Nat) : PerformanceModule :=
  ids.foldl PerformanceModule.add { modules := [], calls := 0 }


/-! Subsection: Arithmetic facts about the width conversions -/

lemma toInt32_of_lt (n : Nat) (h : n < 2147483648) : toInt32 n = (n : Int) := by
  unfold toInt32 INT_MOD
  rw [Nat.mod_eq_of_lt (by omega)]
  simp [h]

lemma toInt32_lb (n : Nat) : -2147483648 ≤ toInt32 n := by
  unfold toInt32 INT_MOD
  have h1 : n % 4294967296 < 4294967296 := Nat.mod_lt _ (by omega)
  split <;> omega

lemma toInt32_ub (n : Nat) : toInt32 n < 2147483648 := by
  unfold toInt32 INT_MOD
  have h1 : n % 4294967296 < 4294967296 := Nat.mod_lt _ (by omega)
  split <;> omega

lemma toSizeT_coe (n : Nat) (h : n < SIZE_T_MOD) : toSizeT (n : Int) = n := by
  unfold toSizeT SIZE_T_MOD
  unfold SIZE_T_MOD at h
  rw [Int.emod_eq_of_lt (by positivity) (by exact_mod_cast h)]
  simp

lemma toSizeT_eq_zero_iff (z : Int) (h1 : -18446744073709551616 < z)
    (h2 : z < 18446744073709551616) : toSizeT z = 0 ↔ z = 0 := by
  unfold toSizeT SIZE_T_MOD
  constructor
  · intro h
    have hnn : 0 ≤ z % 18446744073709551616 := Int.emod_nonneg _ (by omega)
    have : z % 18446744073709551616 = 0 := by omega
    omega
  · intro h
    subst h
    rfl

/-- Lemma: `addReference` at a small count `n` yields count `n + 1` and returns
`n + 1`, with no destruction. -/
lemma addReference_small (r : Referenced) (h : r._referenceCount + 1 < 2147483648) :
    r.addReference = ({ r with _referenceCount := r._referenceCount + 1 },
      r._referenceCount + 1) := by
  have hlt : r._referenceCount + 1 < SIZE_T_MOD := by unfold SIZE_T_MOD; omega
  simp only [Referenced.addReference]
  rw [Nat.mod_eq_of_lt hlt, toInt32_of_lt _ h, toSizeT_coe _ hlt]

/-- Lemma: `removeReference` at a small positive count `n` yields count `n - 1`,
returns `n - 1`, and destroys the object exactly when `n - 1 = 0`. -/
lemma removeReference_small (r : Referenced) (hpos : 1 ≤ r._referenceCount)
    (h : r._referenceCount < 2147483648) :
    r.removeReference = (Referenced.mk (r._referenceCount - 1)
      (r.deleteCount + (if r._referenceCount - 1 = 0 then 1 else 0)),
      r._referenceCount - 1) := by
  have hz0 : ¬ (r._referenceCount = 0) := by omega
  simp only [Referenced.removeReference, hz0, if_false]
  rw [toInt32_of_lt _ (by omega),
    toSizeT_coe _ (by unfold SIZE_T_MOD; omega)]
  by_cases hz : r._referenceCount - 1 = 0
  · simp [hz]
  · have hz2 : ¬ (((r._referenceCount - 1 : Nat) : Int) = 0) := by omega
    simp [hz, hz2]

/-- Lemma: `removeReference` destroys its object exactly when the value it
returns is zero (for any starting count). -/
lemma removeReference_delete_iff (r : Referenced) :
    r.removeReference.1.deleteCount = r.deleteCount + 1 ↔ r.removeReference.2 = 0 := by
  simp only [Referenced.removeReference]
  set c : Nat := if r._referenceCount = 0 then SIZE_T_MOD - 1 else r._referenceCount - 1 with hc
  rw [toSizeT_eq_zero_iff _ (by have := toInt32_lb c; omega) (by have := toInt32_ub c; omega)]
  by_cases hz : toInt32 c = 0
  · simp [hz]
  · simp [hz]

/-- C2: for every `Referenced` object whose reference count is `n` (kept
within the `int` range the code truncates to), `addReference()` increments
the count and returns the new count `n + 1`; `removeReference()`
decrements the count, returns the new count `n - 1`, and destroys the
object exactly when that returned result is zero. -/
theorem C2_addReference_removeReference (r : Referenced) (n : Nat)
    (hn : r._referenceCount = n) (hsmall : n + 1 < 2147483648) :
    (r.addReference.1._referenceCount = n + 1 ∧ r.addReference.2 = n + 1) ∧
    (1 ≤ n → r.removeReference.1._referenceCount = n - 1 ∧ r.removeReference.2 = n - 1) ∧
    (r.removeReference.1.deleteCount = r.deleteCount + 1 ↔ r.removeReference.2 = 0) := by
  subst hn
  refine ⟨?_, ?_, removeReference_delete_iff r⟩
  · rw [addReference_small r hsmall]
    exact ⟨rfl, rfl⟩
  · intro hpos
    rw [removeReference_small r hpos (by omega)]
    exact ⟨rfl, rfl⟩

/-- Witness for C2 at the concrete object `⟨2, 0⟩`. -/
theorem C2_addReference_removeReference_witness :
    ((2 : Nat) + 1 < 2147483648) ∧
    (((Referenced.mk 2 0).addReference.1._referenceCount = 2 + 1 ∧
      (Referenced.mk 2 0).addReference.2 = 2 + 1) ∧
     (1 ≤ 2 → (Referenced.mk 2 0).removeReference.1._referenceCount = 2 - 1 ∧
      (Referenced.mk 2 0).removeReference.2 = 2 - 1) ∧
     ((Referenced.mk 2 0).removeReference.1.deleteCount = (Referenced.mk 2 0).deleteCount + 1 ↔
      (Referenced.mk 2 0).removeReference.2 = 0)) :=
  ⟨by decide, C2_addReference_removeReference (Referenced.mk 2 0) 2 rfl (by decide)⟩

/-- Master invariant for a history of calls starting from count `c0`:
provided the count stays strictly positive before every call except
possibly the last (the object is alive whenever it is used) and the
history is short enough for the `int` truncation to be exact, the final
count is `c0 + N - M` and `delete this` runs exactly once, exactly when
the final decrement reaches zero. -/
lemma runRefOps_master (l : List RefOp) : ∀ (c0 d0 : Nat),
    c0 + l.length < 2147483648 →
    nRemoves l ≤ c0 + nAdds l →
    (∀ k, 0 < k → k < l.length → nRemoves (l.take k) < c0 + nAdds (l.take k)) →
    (runRefOps ⟨c0, d0⟩ l)._referenceCount = c0 + nAdds l - nRemoves l ∧
    (runRefOps ⟨c0, d0⟩ l).deleteCount =
      d0 + (if c0 + nAdds l = nRemoves l ∧ l ≠ [] then 1 else 0) := by
  induction l with
  | nil =>
      intro c0 d0 hbound hfin hpre
      simp [runRefOps, nAdds, nRemoves]
  | cons op t ih0 =>
      intro c0 d0 hbound hfin hpre
      have hlen : (op :: t).length = t.length + 1 := rfl
      cases op with
      | add =>
          have hc1 : c0 + 1 < 2147483648 := by rw [hlen] at hbound; omega
          have hstep : (Referenced.addReference ⟨c0, d0⟩).1 = ⟨c0 + 1, d0⟩ := by
            rw [addReference_small ⟨c0, d0⟩ hc1]
          have hfin' : nRemoves t ≤ (c0 + 1) + nAdds t := by
            simp only [nAdds, nRemoves] at hfin
            omega
          have hpre' : ∀ k, 0 < k → k < t.length →
              nRemoves (t.take k) < (c0 + 1) + nAdds (t.take k) := by
            intro k hk0 hk1
            have h := hpre (k + 1) (by omega) (by rw [hlen]; omega)
            rw [List.take_succ_cons] at h
            simp only [nAdds, nRemoves] at h
            omega
          have ih := ih0 (c0 + 1) d0 (by rw [hlen] at hbound; omega) hfin' hpre'
          have hrun : runRefOps ⟨c0, d0⟩ (RefOp.add :: t) = runRefOps ⟨c0 + 1, d0⟩ t := by
            rw [runRefOps, hstep]
          rw [hrun]
          simp only [nAdds, nRemoves]
          refine ⟨by rw [ih.1]; omega, ?_⟩
          rw [ih.2]
          by_cases heq : c0 + 1 + nAdds t = nRemoves t
          · have ht : t ≠ [] := by
              intro h0
              subst h0
              simp [nAdds, nRemoves] at heq
            simp only [heq, ht, ne_eq, not_false_iff, and_true, if_true]
            have heq2 : c0 + (nAdds t + 1) = nRemoves t := by omega
            simp [heq2]
          · have hne2 : ¬ (c0 + (nAdds t + 1) = nRemoves t) := by omega
            simp [heq, hne2]
      | remove =>
          have hc0pos : 1 ≤ c0 := by
            rcases t with _ | ⟨op2, t2⟩
            · simp only [nAdds, nRemoves] at hfin
              omega
            · have h := hpre 1 (by omega) (by rw [hlen]; simp)
              simp [nAdds, nRemoves] at h
              omega
          have hstep : (Referenced.removeReference ⟨c0, d0⟩).1 =
              ⟨c0 - 1, d0 + (if c0 - 1 = 0 then 1 else 0)⟩ := by
            rw [removeReference_small ⟨c0, d0⟩ hc0pos
              (by rw [hlen] at hbound; show c0 < 2147483648; omega)]
          have hrun : runRefOps ⟨c0, d0⟩ (RefOp.remove :: t) =
              runRefOps ⟨c0 - 1, d0 + (if c0 - 1 = 0 then 1 else 0)⟩ t := by
            rw [runRefOps, hstep]
          rcases Decidable.em (t = []) with ht | ht
          · subst ht
            rw [hrun]
            simp only [runRefOps, nAdds, nRemoves]
            refine ⟨by omega, ?_⟩
            by_cases hc1 : c0 = 1
            · simp [hc1]
            · have h1 : ¬ (c0 - 1 = 0) := by omega
              have h2 : ¬ (c0 + 0 = 0 + 1) := by omega
              simp [h1, h2, hc1]
          · -- the history continues, so the count before this call is ≥ 2
            have hc2 : 2 ≤ c0 := by
              have h := hpre 1 (by omega) (by rw [hlen]; cases t <;> simp_all)
              simp [nAdds, nRemoves] at h
              omega
            have hnodel : ¬ (c0 - 1 = 0) := by omega
            rw [hrun]
            simp only [hnodel, if_false, Nat.add_zero]
            have hfin' : nRemoves t ≤ (c0 - 1) + nAdds t := by
              simp only [nAdds, nRemoves] at hfin
              omega
            have hpre' : ∀ k, 0 < k → k < t.length →
                nRemoves (t.take k) < (c0 - 1) + nAdds (t.take k) := by
              intro k hk0 hk1
              have h := hpre (k + 1) (by omega) (by rw [hlen]; omega)
              rw [List.take_succ_cons] at h
              simp only [nAdds, nRemoves] at h
              omega
            have ih := ih0 (c0 - 1) d0 (by rw [hlen] at hbound; omega) hfin' hpre'
            simp only [nAdds, nRemoves]
            refine ⟨by rw [ih.1]; omega, ?_⟩
            rw [ih.2]
            by_cases heq : c0 - 1 + nAdds t = nRemoves t
            · simp only [heq, ht, ne_eq, not_false_iff, and_true, if_true]
              have heq2 : c0 + nAdds t = nRemoves t + 1 := by omega
              simp [heq2]
            · have hne2 : ¬ (c0 + nAdds t = nRemoves t + 1) := by omega
              simp [heq, hne2]

/-- C4: for any sequence of `N` `addReference` and `M` `removeReference`
calls (`N ≥ M`) applied to one freshly constructed `Referenced` object —
each call made while the object is still alive, i.e. every proper prefix
of the history keeps the count positive, and the history short enough for
the `int` truncation to be exact — the final reference count equals
`N - M`, and the object is destroyed exactly once, exactly when a
decrement brings the count to 0: at the final call when `N = M`, never
earlier and never twice. -/
theorem C4_interleaving_refcount (l : List RefOp)
    (hlen : l.length < 2147483648)
    (hNM : nRemoves l ≤ nAdds l)
    (halive : ∀ k, k < l.length → 0 < k → nRemoves (l.take k) < nAdds (l.take k)) :
    (runRefOps Referenced.fresh l)._referenceCount = nAdds l - nRemoves l ∧
    (runRefOps Referenced.fresh l).deleteCount =
      (if nAdds l = nRemoves l ∧ l ≠ [] then 1 else 0) ∧
    (∀ k, k < l.length → (runRefOps Referenced.fresh (l.take k)).deleteCount = 0) := by
  unfold Referenced.fresh
  have hm := runRefOps_master l 0 0 (by omega) (by omega)
    (by intro k h1 h2; have := halive k h2 h1; omega)
  refine ⟨by rw [hm.1]; omega, by rw [hm.2]; simp, ?_⟩
  intro k hk
  have hfin' : nRemoves (l.take k) ≤ 0 + nAdds (l.take k) := by
    rcases Nat.eq_zero_or_pos k with h0 | h0
    · subst h0
      simp [nAdds, nRemoves]
    · have := halive k hk h0
      omega
  have hpre' : ∀ j, 0 < j → j < (l.take k).length →
      nRemoves ((l.take k).take j) < 0 + nAdds ((l.take k).take j) := by
    intro j hj0 hj1
    have hjk : j < k := by
      have := List.length_take_le k l
      have h2 : (l.take k).length ≤ k := List.length_take_le k l
      omega
    rw [List.take_take, Nat.min_eq_left (by omega)]
    have := halive j (by omega) hj0
    omega
  have hmk := runRefOps_master (l.take k) 0 0
    (by have : (l.take k).length ≤ k := List.length_take_le k l; omega) hfin' hpre'
  rw [hmk.2]
  have hne : ¬ (0 + nAdds (l.take k) = nRemoves (l.take k) ∧ l.take k ≠ []) := by
    rcases Nat.eq_zero_or_pos k with h0 | h0
    · subst h0
      simp
    · intro hcon
      have h1 := hcon.1
      have h2 := halive k hk h0
      omega
  rw [if_neg hne]

/-- Witness for C4 on the history `[add, add, remove, remove]`. -/
theorem C4_interleaving_refcount_witness :
    nRemoves [RefOp.add, RefOp.add, RefOp.remove, RefOp.remove] ≤
      nAdds [RefOp.add, RefOp.add, RefOp.remove, RefOp.remove] ∧
    (runRefOps Referenced.fresh
      [RefOp.add, RefOp.add, RefOp.remove, RefOp.remove])._referenceCount =
      nAdds [RefOp.add, RefOp.add, RefOp.remove, RefOp.remove] -
      nRemoves [RefOp.add, RefOp.add, RefOp.remove, RefOp.remove] ∧
    (runRefOps Referenced.fresh
      [RefOp.add, RefOp.add, RefOp.remove, RefOp.remove]).deleteCount =
      (if nAdds [RefOp.add, RefOp.add, RefOp.remove, RefOp.remove] =
          nRemoves [RefOp.add, RefOp.add, RefOp.remove, RefOp.remove] ∧
          ([RefOp.add, RefOp.add, RefOp.remove, RefOp.remove] : List RefOp) ≠ []
        then 1 else 0) ∧
    (runRefOps Referenced.fresh
      ([RefOp.add, RefOp.add, RefOp.remove, RefOp.remove].take 3)).deleteCount = 0 :=
  ⟨by decide,
   (C4_interleaving_refcount _ (by decide) (by decide) (by decide)).1,
   (C4_interleaving_refcount _ (by decide) (by decide) (by decide)).2.1,
   (C4_interleaving_refcount _ (by decide) (by decide) (by decide)).2.2 3 (by decide)⟩

lemma refPtrCopyCtor_iterate (K : Nat) : ∀ (r : Referenced),
    r._referenceCount + K < 2147483648 →
    (refPtrCopyCtor true)^[K] r =
      ⟨r._referenceCount + K, r.deleteCount⟩ := by
  induction K with
  | zero =>
      intro r _
      simp
  | succ k ihk =>
      intro r hr
      rw [Function.iterate_succ_apply]
      have hstep : refPtrCopyCtor true r = ⟨r._referenceCount + 1, r.deleteCount⟩ := by
        unfold refPtrCopyCtor
        rw [if_pos rfl, addReference_small r (by omega)]
      rw [hstep, ihk ⟨r._referenceCount + 1, r.deleteCount⟩ (by simp; omega)]
      simp
      omega

lemma refPtrDtor_iterate (K : Nat) : ∀ (r : Referenced),
    K + 1 ≤ r._referenceCount →
    r._referenceCount < 2147483648 →
    (refPtrDtor true)^[K] r =
      ⟨r._referenceCount - K, r.deleteCount⟩ := by
  induction K with
  | zero =>
      intro r _ _
      simp
  | succ k ihk =>
      intro r hr hb
      rw [Function.iterate_succ_apply]
      have hnz : ¬ (r._referenceCount - 1 = 0) := by omega
      have hstep : refPtrDtor true r = ⟨r._referenceCount - 1, r.deleteCount⟩ := by
        unfold refPtrDtor
        rw [if_pos rfl, removeReference_small r (by omega) (by omega)]
        simp [hnz]
      rw [hstep, ihk ⟨r._referenceCount - 1, r.deleteCount⟩ (by simp; omega) (by simp; omega)]
      simp
      omega

/-- C5: making `K` copies of one `ref_ptr` handle owning an object with
reference count 1 raises the count to `K + 1`; destroying all `K` copies
returns the count to 1 without ever destroying the object. -/
theorem C5_handle_copies (K : Nat) (r : Referenced)
    (hr : r._referenceCount = 1) (hd : r.deleteCount = 0)
    (hK : K + 1 < 2147483648) :
    ((refPtrCopyCtor true)^[K] r)._referenceCount = K + 1 ∧
    ((refPtrCopyCtor true)^[K] r).deleteCount = 0 ∧
    ((refPtrDtor true)^[K] ((refPtrCopyCtor true)^[K] r))._referenceCount = 1 ∧
    ((refPtrDtor true)^[K] ((refPtrCopyCtor true)^[K] r)).deleteCount = 0 := by
  have hcopy := refPtrCopyCtor_iterate K r (by omega)
  rw [hcopy, hr, hd]
  have hdtor := refPtrDtor_iterate K ⟨1 + K, 0⟩ (by simp; omega) (by simp; omega)
  rw [hdtor]
  simp
  omega

/-- Witness for C5 at `K = 3` on an object with count 1. -/
theorem C5_handle_copies_witness :
    ((Referenced.mk 1 0)._referenceCount = 1 ∧ (3 : Nat) + 1 < 2147483648) ∧
    ((refPtrCopyCtor true)^[3] (Referenced.mk 1 0))._referenceCount = 3 + 1 ∧
    ((refPtrCopyCtor true)^[3] (Referenced.mk 1 0)).deleteCount = 0 ∧
    ((refPtrDtor true)^[3] ((refPtrCopyCtor true)^[3] (Referenced.mk 1 0)))._referenceCount = 1 ∧
    ((refPtrDtor true)^[3] ((refPtrCopyCtor true)^[3] (Referenced.mk 1 0))).deleteCount = 0 :=
  ⟨⟨rfl, by decide⟩, C5_handle_copies 3 (Referenced.mk 1 0) rfl rfl (by decide)⟩

/-- C10: assigning to a `ref_ptr` a pointer it already holds (including
assigning a handle to itself, which reaches `assign` with
`_ptr == rp._ptr`) is a no-op — the heap, hence every reference count,
is unchanged and nothing is destroyed, and no count mutation happens at
all; for distinct non-null pointers, the assignment increments the new
object's count strictly before decrementing the old one's. -/
theorem C10_refptr_assign_order (s : Option Nat) (h : RCHeap) (a b : Nat) :
    (∀ p, s = p → refPtrAssignRaw s p h = ((s, h), []) ∧
      refPtrAssign s p h = ((s, h), [])) ∧
    (a ≠ b →
      refPtrAssignRaw (some a) (some b) h =
        ((some b, heapRemoveRef (heapAddRef h b) a),
          [RefEvent.addRef b, RefEvent.removeRef a]) ∧
      refPtrAssign (some a) (some b) h =
        ((some b, heapRemoveRef (heapAddRef h b) a),
          [RefEvent.addRef b, RefEvent.removeRef a])) := by
  constructor
  · intro p hp
    subst hp
    constructor
    · unfold refPtrAssignRaw
      rw [if_pos rfl]
    · unfold refPtrAssign
      rw [if_pos rfl]
  · intro hab
    have hne : ¬ ((some a : Option Nat) = some b) := by simp [hab]
    constructor
    · unfold refPtrAssignRaw
      rw [if_neg hne]
      rfl
    · unfold refPtrAssign
      rw [if_neg hne]
      rfl

/-- Witness for C10 on the concrete heap `fun _ => ⟨1, 0⟩` with
addresses 1 and 2. -/
theorem C10_refptr_assign_order_witness :
    (refPtrAssignRaw (some 1) (some 1) (fun _ => Referenced.mk 1 0) =
      ((some 1, fun _ => Referenced.mk 1 0), []) ∧
     refPtrAssign (some 1) (some 1) (fun _ => Referenced.mk 1 0) =
      ((some 1, fun _ => Referenced.mk 1 0), [])) ∧
    ((1 : Nat) ≠ 2) ∧
    (refPtrAssignRaw (some 1) (some 2) (fun _ => Referenced.mk 1 0) =
      ((some 2, heapRemoveRef (heapAddRef (fun _ => Referenced.mk 1 0) 2) 1),
        [RefEvent.addRef 2, RefEvent.removeRef 1]) ∧
     refPtrAssign (some 1) (some 2) (fun _ => Referenced.mk 1 0) =
      ((some 2, heapRemoveRef (heapAddRef (fun _ => Referenced.mk 1 0) 2) 1),
        [RefEvent.addRef 2, RefEvent.removeRef 1])) :=
  ⟨(C10_refptr_assign_order (some 1) (fun _ => Referenced.mk 1 0) 1 2).1 (some 1) rfl,
   by decide,
   (C10_refptr_assign_order (some 1) (fun _ => Referenced.mk 1 0) 1 2).2 (by decide)⟩

/-- C1: the claim requires the flag-taking constructors to honour their
`clone` (and `recursive`) arguments, but the source never assigns those
arguments to the members (only `recursive(false)` respectively nothing
is in the initializer lists, leaving the members uninitialized): the
constructed state is independent of the arguments, and a collector
constructed with `clone = true` whose uninitialized member reads `false`
stores a shared handle, not an independent copy. -/
theorem C1_ctor_flags_dropped :
    (∀ (n : Nat) (c c2 u : Bool),
       ParticleCollector.ctorBufferClone n c u =
         ParticleCollector.ctorBufferClone n c2 u) ∧
    (∀ (n : Nat) (c r c2 r2 u v : Bool),
       ParticleCollector.ctorBufferCloneRecursive n c r u v =
         ParticleCollector.ctorBufferCloneRecursive n c2 r2 u v) ∧
    ((ParticleCollector.ctorBufferClone 10 true false).process
        (fun _ => candOf 22 true) 0).container = [CollEntry.shared 0] :=
  ⟨fun _ _ _ _ => rfl, fun _ _ _ _ _ _ _ => rfl, rfl⟩

/-- C3 (counterexample): on a candidate whose `active` flag is false,
the collector nevertheless stores an entry, the filter nevertheless
invokes the accept capability, and the emission-map filler nevertheless
records the source state — the claimed silent no-op does not happen. -/
theorem C3_counterexample_inactive_processed :
    (candOf 22 false).active = false ∧
    (ParticleCollector.ctorDefault.process (fun _ => candOf 22 false) 0).container.length = 1 ∧
    ParticleFilter.process ⟨{22}⟩ (candOf 22 false) = FilterDecision.accept ∧
    EmissionMapFiller.process ⟨some []⟩ (candOf 22 false) =
      ⟨some [(candOf 22 false).source]⟩ :=
  ⟨rfl, rfl, by decide, rfl⟩

/-- C3 (amended): `process` of the collector-, filter-, and
accumulator-style modules never consults the candidate's `active` flag;
for a candidate whose `active` flag is false, processing proceeds
exactly as for an active one — the collector appends exactly one entry,
the filter invokes accept precisely on set membership (reject
otherwise), and the map filler records the source state whenever a map
is configured. -/
theorem C3_amended_inactive_not_skipped (col : ParticleCollector)
    (heap : CandHeap) (p : Nat) (f : ParticleFilter) (c : Cand)
    (m : List ParticleState) (h : c.active = false) :
    (col.process heap p).container.length = col.container.length + 1 ∧
    (ParticleFilter.process f c = FilterDecision.accept ↔ c.current.id ∈ f.ids) ∧
    (ParticleFilter.process f c = FilterDecision.reject ↔ c.current.id ∉ f.ids) ∧
    EmissionMapFiller.process ⟨some m⟩ c = ⟨some (fillMap m c.source)⟩ := by
  refine ⟨?_, ?_, ?_, rfl⟩
  · unfold ParticleCollector.process
    split <;> simp
  · unfold ParticleFilter.process
    by_cases hmem : c.current.id ∈ f.ids <;> simp [hmem]
  · unfold ParticleFilter.process
    by_cases hmem : c.current.id ∈ f.ids <;> simp [hmem]

/-- Witness for C3 (amended) on an inactive candidate with id 22 and
the filter set `{22}`. -/
theorem C3_amended_inactive_not_skipped_witness :
    (candOf 22 false).active = false ∧
    (ParticleCollector.ctorDefault.process (fun _ => candOf 22 false) 0).container.length =
      ParticleCollector.ctorDefault.container.length + 1 ∧
    (ParticleFilter.process ⟨{22}⟩ (candOf 22 false) = FilterDecision.accept ↔
      (candOf 22 false).current.id ∈ ({22} : Finset Int)) ∧
    (ParticleFilter.process ⟨{22}⟩ (candOf 22 false) = FilterDecision.reject ↔
      (candOf 22 false).current.id ∉ ({22} : Finset Int)) ∧
    EmissionMapFiller.process ⟨some []⟩ (candOf 22 false) =
      ⟨some (fillMap [] (candOf 22 false).source)⟩ :=
  ⟨rfl, C3_amended_inactive_not_skipped ParticleCollector.ctorDefault
    (fun _ => candOf 22 false) 0 ⟨{22}⟩ (candOf 22 false) [] rfl⟩

/-- C6: for every particle-id set S held by a ParticleFilter and every
candidate, `process` invokes the accept capability iff the candidate's
current id is a member of S, and the reject capability iff it is not. -/
theorem C6_filter_accept_iff_member (f : ParticleFilter) (c : Cand) :
    (ParticleFilter.process f c = FilterDecision.accept ↔ c.current.id ∈ f.ids) ∧
    (ParticleFilter.process f c = FilterDecision.reject ↔ c.current.id ∉ f.ids) := by
  unfold ParticleFilter.process
  by_cases hmem : c.current.id ∈ f.ids <;> simp [hmem]

/-- C9: `PhotonOutput1D::process` leaves any candidate whose current id
is neither 22 nor of absolute value 11 completely unchanged (including
its `active` flag) and writes nothing; exactly for ids 22, 11 and −11 it
writes one record and deactivates the candidate. -/
theorem C9_photon_output_gate (EeV Mpc : Rat) (c : Cand) :
    (c.current.id ≠ 22 ∧ |c.current.id| ≠ 11 →
      PhotonOutput1D.process EeV Mpc c = (c, none)) ∧
    (c.current.id = 22 ∨ c.current.id = 11 ∨ c.current.id = -11 →
      (PhotonOutput1D.process EeV Mpc c).1 = c.setActive false ∧
      ((PhotonOutput1D.process EeV Mpc c).2).isSome = true) := by
  constructor
  · intro h
    unfold PhotonOutput1D.process
    rw [if_pos h]
  · intro h
    have hguard : ¬ (c.current.id ≠ 22 ∧ |c.current.id| ≠ 11) := by
      rcases h with h | h | h <;> simp [h]
    unfold PhotonOutput1D.process
    rw [if_neg hguard]
    exact ⟨rfl, rfl⟩

/-- Witness for C9 at ids 13 (no output, unchanged) and 22 (record
written, deactivated). -/
theorem C9_photon_output_gate_witness :
    ((candOf 13 true).current.id ≠ 22 ∧ |(candOf 13 true).current.id| ≠ 11) ∧
    PhotonOutput1D.process 1 1 (candOf 13 true) = (candOf 13 true, none) ∧
    ((PhotonOutput1D.process 1 1 (candOf 22 true)).1 = (candOf 22 true).setActive false ∧
     ((PhotonOutput1D.process 1 1 (candOf 22 true)).2).isSome = true) :=
  ⟨by decide,
   (C9_photon_output_gate 1 1 (candOf 13 true)).1 (by decide),
   (C9_photon_output_gate 1 1 (candOf 22 true)).2 (Or.inl rfl)⟩

lemma eraseIdx_concat {α : Type} (l : List α) (a : α) :
    (l ++ [a]).eraseIdx l.length = l := by
  induction l with
  | nil => rfl
  | cons x t ih =>
      simp only [List.cons_append, List.length_cons, List.eraseIdx]
      exact congrArg (x :: ·) ih

lemma clone_restart_props (c : Cand) :
    ((c.clone false).restart).active = true ∧
    ((c.clone false).restart).trajectoryLength = 0 ∧
    ((c.clone false).restart).source = c.source ∧
    ((c.clone false).restart).created = c.created := by
  rcases c with ⟨cu, cr, so, a, tl, se⟩
  simp [Cand.clone, Cand.restart, Cand.active, Cand.trajectoryLength,
    Cand.source, Cand.created]

/-- C7: for a valid stored index `i`, `getTrajectory(pipeline, i,
outputModule)` leaves the collector (hence the stored entry) unchanged,
leaves the module chain as it was before the call (the temporary module
appended at the end is removed again), and the candidate it runs through
the extended chain is the restarted clone of the stored candidate —
trajectory length reset to 0, `active` reset to true, source and
created snapshots untouched. -/
theorem C7_getTrajectory_frame (col : ParticleCollector) (heap : CandHeap)
    (ml : ModuleList) (i : Nat) (output : Module) (fuel : Nat)
    (hi : i < col.container.length) :
    (col.getTrajectory heap ml i output fuel).1 = col ∧
    (col.getTrajectory heap ml i output fuel).2.1 = ml ∧
    (col.getTrajectory heap ml i output fuel).2.2 =
      (ml.add output).run fuel
        ((((col.container.getD i (CollEntry.cloned defaultCand)).deref heap).clone
          false).restart) ∧
    ((((col.container.getD i (CollEntry.cloned defaultCand)).deref heap).clone
        false).restart).active = true ∧
    ((((col.container.getD i (CollEntry.cloned defaultCand)).deref heap).clone
        false).restart).trajectoryLength = 0 ∧
    ((((col.container.getD i (CollEntry.cloned defaultCand)).deref heap).clone
        false).restart).source =
      ((col.container.getD i (CollEntry.cloned defaultCand)).deref heap).source ∧
    ((((col.container.getD i (CollEntry.cloned defaultCand)).deref heap).clone
        false).restart).created =
      ((col.container.getD i (CollEntry.cloned defaultCand)).deref heap).created := by
  have hprops := clone_restart_props
    ((col.container.getD i (CollEntry.cloned defaultCand)).deref heap)
  refine ⟨rfl, ?_, rfl, hprops.1, hprops.2.1, hprops.2.2.1, hprops.2.2.2⟩
  show ModuleList.remove (ml.add output) ((ml.add output).size - 1) = ml
  unfold ModuleList.remove ModuleList.add ModuleList.size
  simp only [List.length_append, List.length_cons, List.length_nil,
    Nat.add_sub_cancel]
  rw [eraseIdx_concat]

/-- Witness for C7 on a one-entry collector, the empty chain, the
identity output module and step budget 0. -/
theorem C7_getTrajectory_frame_witness :
    ((0 : Nat) < collWithOne.container.length) ∧
    (collWithOne.getTrajectory (fun _ => candOf 22 false) ⟨[]⟩ 0 (fun c => c) 0).1 =
      collWithOne ∧
    (collWithOne.getTrajectory (fun _ => candOf 22 false) ⟨[]⟩ 0 (fun c => c) 0).2.1 =
      (⟨[]⟩ : ModuleList) ∧
    ((((collWithOne.container.getD 0 (CollEntry.cloned defaultCand)).deref
        (fun _ => candOf 22 false)).clone false).restart).active = true :=
  ⟨by decide,
   (C7_getTrajectory_frame collWithOne (fun _ => candOf 22 false) ⟨[]⟩ 0
      (fun c => c) 0 (by decide)).1,
   (C7_getTrajectory_frame collWithOne (fun _ => candOf 22 false) ⟨[]⟩ 0
      (fun c => c) 0 (by decide)).2.1,
   (C7_getTrajectory_frame collWithOne (fun _ => candOf 22 false) ⟨[]⟩ 0
      (fun c => c) 0 (by decide)).2.2.2.1⟩

lemma addTimes_length (l : List ModuleInfo) (d : Nat → Rat) :
    ∀ i0, (addTimes l d i0).length = l.length := by
  induction l with
  | nil => intro i0; rfl
  | cons m t ih =>
      intro i0
      simp [addTimes, ih]

lemma addTimes_getD (l : List ModuleInfo) (d : Nat → Rat) :
    ∀ i0 j, j < l.length →
      (addTimes l d i0).getD j ⟨0, 0⟩ =
        { moduleId := (l.getD j ⟨0, 0⟩).moduleId,
          time := (l.getD j ⟨0, 0⟩).time + d (i0 + j) } := by
  induction l with
  | nil =>
      intro i0 j hj
      simp at hj
  | cons m t ih =>
      intro i0 j hj
      cases j with
      | zero => simp [addTimes]
      | succ j2 =>
          have hj2 : j2 < t.length := by simp at hj; omega
          have := ih (i0 + 1) j2 hj2
          simp only [addTimes, List.getD_cons_succ]
          rw [this, show i0 + 1 + j2 = i0 + (j2 + 1) from by omega]

lemma pmRun_calls (ds : List (Nat → Rat)) : ∀ pm : PerformanceModule,
    (pmRun pm ds).calls = pm.calls + ds.length := by
  induction ds with
  | nil => intro pm; simp [pmRun]
  | cons d t ih =>
      intro pm
      simp only [pmRun]
      rw [ih]
      simp [PerformanceModule.process]
      omega

lemma pmRun_length (ds : List (Nat → Rat)) : ∀ pm : PerformanceModule,
    (pmRun pm ds).modules.length = pm.modules.length := by
  induction ds with
  | nil => intro pm; rfl
  | cons d t ih =>
      intro pm
      simp only [pmRun]
      rw [ih]
      simp [PerformanceModule.process, addTimes_length]

lemma pmRun_getD (ds : List (Nat → Rat)) : ∀ (pm : PerformanceModule) (j : Nat),
    j < pm.modules.length →
    (pmRun pm ds).modules.getD j ⟨0, 0⟩ =
      { moduleId := (pm.modules.getD j ⟨0, 0⟩).moduleId,
        time := (pm.modules.getD j ⟨0, 0⟩).time + (ds.map (fun d => d j)).sum } := by
  induction ds with
  | nil =>
      intro pm j hj
      show pm.modules.getD j ⟨0, 0⟩ = _
      rcases h : pm.modules.getD j ⟨0, 0⟩ with ⟨mid, t⟩
      simp
  | cons d t ih =>
      intro pm j hj
      simp only [pmRun]
      have hlen : j < (pm.process d).modules.length := by
        simp [PerformanceModule.process, addTimes_length]
        omega
      rw [ih (pm.process d) j hlen]
      have hgetD : (pm.process d).modules.getD j ⟨0, 0⟩ =
          { moduleId := (pm.modules.getD j ⟨0, 0⟩).moduleId,
            time := (pm.modules.getD j ⟨0, 0⟩).time + d (0 + j) } :=
        addTimes_getD pm.modules d 0 j hj
      rw [hgetD]
      simp only [List.map_cons, List.sum_cons, Nat.zero_add]
      rw [add_assoc]

lemma pmInit_foldl (ids : List Nat) : ∀ pm0 : PerformanceModule,
    ids.foldl PerformanceModule.add pm0 =
      { modules := pm0.modules ++ ids.map (fun id => ⟨id, 0⟩), calls := pm0.calls } := by
  induction ids with
  | nil =>
      intro pm0
      rcases pm0 with ⟨ms, cs⟩
      simp
  | cons id t ih =>
      intro pm0
      simp only [List.foldl_cons]
      rw [ih]
      simp [PerformanceModule.add]

lemma foldl_add_time (l : List ModuleInfo) : ∀ a : Rat,
    l.foldl (fun total m => total + m.time) a = a + (l.map (fun m => m.time)).sum := by
  induction l with
  | nil => intro a; simp
  | cons m t ih =>
      intro a
      simp only [List.foldl_cons, List.map_cons, List.sum_cons]
      rw [ih]
      ring

lemma getD_map_mkInfo (ids : List Nat) : ∀ i : Nat,
    (ids.map (fun id => (⟨id, 0⟩ : ModuleInfo))).getD i ⟨0, 0⟩ =
      ⟨ids.getD i 0, 0⟩ := by
  induction ids with
  | nil => intro i; cases i <;> rfl
  | cons id t ih =>
      intro i
      cases i with
      | zero => rfl
      | succ i2 => simp [ih i2]

/-- C8: after any number of `process` calls (with arbitrary measured
per-call durations), the global invocation counter equals the number of
calls, each wrapped module's accumulated time equals the sum of its
measured per-call durations, and the total the teardown report uses
equals the sum of the per-module accumulated times (exactly, in the
exact-rational model of `double`). -/
theorem C8_performance_totals (ids : List Nat) (ds : List (Nat → Rat)) :
    (pmRun (pmInit ids) ds).calls = ds.length ∧
    (∀ i, i < ids.length →
      ((pmRun (pmInit ids) ds).modules.getD i ⟨0, 0⟩).moduleId = ids.getD i 0 ∧
      ((pmRun (pmInit ids) ds).modules.getD i ⟨0, 0⟩).time =
        (ds.map (fun d => d i)).sum) ∧
    (pmRun (pmInit ids) ds).totalTime =
      ((pmRun (pmInit ids) ds).modules.map (fun m => m.time)).sum := by
  have hinit : pmInit ids =
      { modules := ids.map (fun id => ⟨id, 0⟩), calls := 0 } := by
    unfold pmInit
    rw [pmInit_foldl]
    simp
  refine ⟨?_, ?_, ?_⟩
  · rw [pmRun_calls, hinit]
    simp
  · intro i hi
    have hlen : i < (pmInit ids).modules.length := by
      rw [hinit]
      simp [hi]
    rw [pmRun_getD ds (pmInit ids) i hlen, hinit]
    simp only
    rw [getD_map_mkInfo ids i]
    exact ⟨rfl, by simp⟩
  · unfold PerformanceModule.totalTime
    rw [foldl_add_time]
    simp

/-- Witness for C8 with two wrapped modules and two calls of measured
durations 3 and 5. -/
theorem C8_performance_totals_witness :
    (pmRun (pmInit [5, 7]) [fun _ => (3 : Rat), fun _ => 5]).calls =
      ([fun _ => (3 : Rat), fun _ => 5] : List (Nat → Rat)).length ∧
    ((0 : Nat) < ([5, 7] : List Nat).length) ∧
    ((pmRun (pmInit [5, 7]) [fun _ => (3 : Rat), fun _ => 5]).modules.getD 0
        ⟨0, 0⟩).time =
      (([fun _ => (3 : Rat), fun _ => 5] : List (Nat → Rat)).map (fun d => d 0)).sum ∧
    (pmRun (pmInit [5, 7]) [fun _ => (3 : Rat), fun _ => 5]).totalTime =
      ((pmRun (pmInit [5, 7]) [fun _ => (3 : Rat), fun _ => 5]).modules.map
        (fun m => m.time)).sum :=
  ⟨(C8_performance_totals [5, 7] [fun _ => (3 : Rat), fun _ => 5]).1,
   by decide,
   ((C8_performance_totals [5, 7] [fun _ => (3 : Rat), fun _ => 5]).2.1 0
      (by decide)).2,
   (C8_performance_totals [5, 7] [fun _ => (3 : Rat), fun _ => 5]).2.2⟩

end crpropa

